import Mathlib

/-!
Verification development for `mpd-thing-rs`, a terminal layout editor
(`src/containers.rs`, `src/main.rs`): a binary-split container tree with
style cascading, a focus-navigation stack, and a three-mode editing state
machine.

Modelling notes.
* `u16` rectangle coordinates and `u8` child indices are `Nat`; arithmetic
  that can wrap in the source is either guarded by explicit validity
  hypotheses (rectangle coordinates) or written with an explicit `% 256`
  (the `u8` increment `cur_index + 1` in `focus_shift`).
* The `f32` split ratio is modelled as `ℚ` (every finite `f32` value is a
  rational); the cast `as u16` applied to a non-negative float is
  `Int.toNat ∘ Int.floor`.
* Drawing is modelled by its paint trace: the list of
  `(BasicWidget, Rect)` pairs, one per `Widget::draw` call, in call order.
* A Rust `unwrap()` on `None` (a panic) is modelled by an operation
  returning `Option`, with `none` standing for the panic.
-/

/-- The subset of `tui::style::Style` the program uses: an optional
foreground and background colour (`Style::default()` leaves both unset,
`.fg(c)` / `.bg(c)` set them). -/
inductive Color where
  | white
  | black
  | yellow
  deriving DecidableEq

structure TStyle where
  fg : Option Color := none
  bg : Option Color := none
  deriving DecidableEq

/-- `Style::default().fg(Color::White).bg(Color::Black)`. -/
def whiteOnBlack : TStyle := ⟨some .white, some .black⟩

/-- `Style::default().fg(Color::Yellow)` — the highlight border style. -/
def yellowFg : TStyle := ⟨some .yellow, none⟩

/-- `WStyle` (containers.rs): a fully specified widget style. -/
structure WStyle where
  title_style : TStyle
  text_style : TStyle
  border_style : TStyle
  deriving DecidableEq

/-- `impl Default for WStyle`. -/
def WStyle.default : WStyle := ⟨whiteOnBlack, whiteOnBlack, whiteOnBlack⟩

/-- `WStyleOpt` (containers.rs): a partial style; `none` means "inherit". -/
structure WStyleOpt where
  title_style : Option TStyle
  text_style : Option TStyle
  border_style : Option TStyle
  deriving DecidableEq

/-- `impl Default for WStyleOpt`. -/
def WStyleOpt.default : WStyleOpt := ⟨none, none, none⟩

/-- `WStyleOpt::set_border_style`. -/
def WStyleOpt.set_border_style (o : WStyleOpt) (s : TStyle) : WStyleOpt :=
  { o with border_style := some s }

/-- `WStyle::set` (containers.rs:96-108): merge a partial style into a full
one, field by field, taking the override's value where it is set. -/
def WStyle.set (s : WStyle) (o : WStyleOpt) : WStyle :=
  { title_style :=
      match o.title_style with
      | some t => t
      | none => s.title_style
    text_style :=
      match o.text_style with
      | some t => t
      | none => s.text_style
    border_style :=
      match o.border_style with
      | some t => t
      | none => s.border_style }

/-- `BasicWidget` (containers.rs): leaf content with a base style and an
optional transient override. -/
structure BasicWidget where
  title : String
  text : String
  style : WStyle
  override_style : Option WStyleOpt
  deriving DecidableEq

/-- `impl Default for BasicWidget`. -/
def BasicWidget.default : BasicWidget := ⟨"", "", WStyle.default, none⟩

/-- `BasicWidget::get_style` (containers.rs:544-549). -/
def BasicWidget.get_style (w : BasicWidget) : WStyle :=
  match w.override_style with
  | some o => w.style.set o
  | none => w.style

/-- `tui::layout::Rect` (all four fields are `u16` in the source). -/
structure Rect where
  x : Nat
  y : Nat
  width : Nat
  height : Nat
  deriving DecidableEq

/-- Cell membership: the rectangle covers columns `[x, x+width)` and rows
`[y, y+height)`. -/
def Rect.contains (r : Rect) (i j : Nat) : Prop :=
  r.x ≤ i ∧ i < r.x + r.width ∧ r.y ≤ j ∧ j < r.y + r.height

instance (r : Rect) (i j : Nat) : Decidable (r.contains i j) := by
  unfold Rect.contains; infer_instance

/-- The ratio clamp at the top of `HSplitContainer::draw` /
`VSplitContainer::draw` (containers.rs:300-305, 416-421). -/
def clampRatio (p : ℚ) : ℚ :=
  if p < 0 then 0 else if 1 < p then 1 else p

/-- `(clamped_split * dim as f32) as u16`: the split coordinate along the
primary dimension (containers.rs:306-307, 422-423). -/
def splitCoord (p : ℚ) (dim : Nat) : Nat :=
  (Int.floor (clampRatio p * dim)).toNat

/-- The `left` / `right` rectangles computed by `HSplitContainer::draw`
(containers.rs:308-319). -/
def hsplitRects (p : ℚ) (r : Rect) : Rect × Rect :=
  let split := splitCoord p r.width
  (⟨r.x, r.y, split, r.height⟩, ⟨r.x + split, r.y, r.width - split, r.height⟩)

/-- The `top` / `bottom` rectangles computed by `VSplitContainer::draw`
(containers.rs:424-435). -/
def vsplitRects (p : ℚ) (r : Rect) : Rect × Rect :=
  let split := splitCoord p r.height
  (⟨r.x, r.y, r.width, split⟩, ⟨r.x, r.y + split, r.width, r.height - split⟩)

/-- The container tree. The source's four `Container` implementors form a
closed set: `BasicContainer` (a leaf owning one `BasicWidget`),
`RootContainer`, `HSplitContainer` and `VSplitContainer` (each split owns a
two-element child vector, always of length 2, and an `f32` ratio). -/
inductive Container where
  | basic (child : BasicWidget)
  | root (child : Container)
  | hsplit (left right : Container) (split : ℚ)
  | vsplit (top bottom : Container) (split : ℚ)
  deriving DecidableEq

/-- `Container::get_child` per variant: `BasicContainer` returns `None`;
`RootContainer` answers index 0; the splits answer `index < children.len()`
with `children.len() = 2`. -/
def Container.get_child : Container → Nat → Option Container
  | .basic _, _ => none
  | .root c, 0 => some c
  | .root _, _ + 1 => none
  | .hsplit a _ _, 0 => some a
  | .hsplit _ b _, 1 => some b
  | .hsplit _ _ _, _ + 2 => none
  | .vsplit a _ _, 0 => some a
  | .vsplit _ b _, 1 => some b
  | .vsplit _ _ _, _ + 2 => none

/-- `Container::set_child` per variant: a no-op on `BasicContainer`
(containers.rs:165-166) and on any out-of-range index. -/
def Container.set_child : Container → Nat → Container → Container
  | .basic w, _, _ => .basic w
  | .root _, 0, d => .root d
  | .root c, _ + 1, _ => .root c
  | .hsplit _ b p, 0, d => .hsplit d b p
  | .hsplit a _ p, 1, d => .hsplit a d p
  | .hsplit a b p, _ + 2, _ => .hsplit a b p
  | .vsplit _ b p, 0, d => .vsplit d b p
  | .vsplit a _ p, 1, d => .vsplit a d p
  | .vsplit a b p, _ + 2, _ => .vsplit a b p

/-- `Container::set_widget`: only `BasicContainer` stores the widget
(containers.rs:176-178); all other variants have an empty body. -/
def Container.set_widget : Container → BasicWidget → Container
  | .basic _, w => .basic w
  | t, _ => t

/-- `Container::get_widget`. -/
def Container.get_widget : Container → Option BasicWidget
  | .basic w => some w
  | _ => none

/-- `Container::has_children`: false only for `BasicContainer`. -/
def Container.has_children : Container → Bool
  | .basic _ => false
  | _ => true

/-- `Container::set_override_style`: recursively sets the override on every
widget in the subtree. -/
def Container.set_override_style : Container → WStyleOpt → Container
  | .basic w, o => .basic { w with override_style := some o }
  | .root c, o => .root (c.set_override_style o)
  | .hsplit a b p, o => .hsplit (a.set_override_style o) (b.set_override_style o) p
  | .vsplit a b p, o => .vsplit (a.set_override_style o) (b.set_override_style o) p

/-- `Container::unset_override_style`: recursively clears the override on
every widget in the subtree. -/
def Container.unset_override_style : Container → Container
  | .basic w => .basic { w with override_style := none }
  | .root c => .root c.unset_override_style
  | .hsplit a b p => .hsplit a.unset_override_style b.unset_override_style p
  | .vsplit a b p => .vsplit a.unset_override_style b.unset_override_style p

/-- `Container::draw` as a paint trace: the `(widget, area)` pairs of every
`Widget::draw` call, in call order.  `RootContainer::draw` bails out when
either dimension is `< 2`; the splits collapse to a single child at the
full rectangle when either computed sub-dimension is `< 2`, choosing the
first child iff the raw (unclamped) ratio exceeds `0.5`. -/
def Container.draw : Container → Rect → List (BasicWidget × Rect)
  | .basic w, r => [(w, r)]
  | .root c, r => if r.width < 2 ∨ r.height < 2 then [] else c.draw r
  | .hsplit a b p, r =>
      let lr := hsplitRects p r
      if lr.1.width < 2 ∨ lr.2.width < 2 then
        if 1 / 2 < p then a.draw r else b.draw r
      else
        a.draw lr.1 ++ b.draw lr.2
  | .vsplit a b p, r =>
      let tb := vsplitRects p r
      if tb.1.height < 2 ∨ tb.2.height < 2 then
        if 1 / 2 < p then a.draw r else b.draw r
      else
        a.draw tb.1 ++ b.draw tb.2

/-- C7: for all override styles o1 and o2 and every base style, merging o1
into the base and then merging o2 yields, for each of the three attributes
(title, text, border), o2's value if o2 sets it, else o1's value if o1 sets
it, else the base's value (right-biased override composition). -/
theorem c7_override_composition (base : WStyle) (o1 o2 : WStyleOpt) :
    (base.set o1).set o2 =
      ⟨(o2.title_style.orElse fun _ => o1.title_style).getD base.title_style,
       (o2.text_style.orElse fun _ => o1.text_style).getD base.text_style,
       (o2.border_style.orElse fun _ => o1.border_style).getD base.border_style⟩ := by
  rcases o1 with ⟨t1, x1, b1⟩
  rcases o2 with ⟨t2, x2, b2⟩
  cases t1 <;> cases t2 <;> cases x1 <;> cases x2 <;> cases b1 <;> cases b2 <;> rfl

lemma clampRatio_nonneg (p : ℚ) : 0 ≤ clampRatio p := by
  unfold clampRatio
  split_ifs <;> linarith

lemma clampRatio_le_one (p : ℚ) : clampRatio p ≤ 1 := by
  unfold clampRatio
  split_ifs <;> linarith

lemma clampRatio_of_mem (p : ℚ) (h0 : 0 ≤ p) (h1 : p ≤ 1) : clampRatio p = p := by
  unfold clampRatio
  rw [if_neg (not_lt.mpr h0), if_neg (not_lt.mpr h1)]

/-- The split coordinate never exceeds the primary dimension. -/
lemma splitCoord_le (p : ℚ) (dim : Nat) : splitCoord p dim ≤ dim := by
  unfold splitCoord
  have h1 : clampRatio p * dim ≤ (dim : ℚ) := by
    calc clampRatio p * dim ≤ 1 * dim :=
          mul_le_mul_of_nonneg_right (clampRatio_le_one p) (by positivity)
    _ = dim := one_mul _
  have h2 : Int.floor (clampRatio p * (dim : ℚ)) ≤ (dim : ℤ) := by
    have h3 := Int.floor_le_floor h1
    simpa using h3
  omega

/-- C1: for every input rectangle R (with coordinates that stay within
`u16`, so that the source's `u16` arithmetic neither panics nor wraps) and
every split ratio p in [0,1], the two sub-rectangles produced by a
splitter's layout (`HSplit` along width, `VSplit` along height) exactly
tile R: their union covers R, they do not overlap, and the shared boundary
lies at `floor(p * primary_dimension)`, the first child receiving the
region before that coordinate and the second the region after. -/
theorem c1_split_tiling (p : ℚ) (r : Rect)
    (hp0 : 0 ≤ p) (hp1 : p ≤ 1)
    (hx : r.x + r.width ≤ 65535) (hy : r.y + r.height ≤ 65535) :
    ((hsplitRects p r).1.width = (Int.floor (p * r.width)).toNat ∧
     (hsplitRects p r).2.x = r.x + (Int.floor (p * r.width)).toNat ∧
     (∀ i j, r.contains i j ↔
       ((hsplitRects p r).1.contains i j ∨ (hsplitRects p r).2.contains i j)) ∧
     (∀ i j, ¬((hsplitRects p r).1.contains i j ∧ (hsplitRects p r).2.contains i j))) ∧
    ((vsplitRects p r).1.height = (Int.floor (p * r.height)).toNat ∧
     (vsplitRects p r).2.y = r.y + (Int.floor (p * r.height)).toNat ∧
     (∀ i j, r.contains i j ↔
       ((vsplitRects p r).1.contains i j ∨ (vsplitRects p r).2.contains i j)) ∧
     (∀ i j, ¬((vsplitRects p r).1.contains i j ∧ (vsplitRects p r).2.contains i j))) := by
  have hclamp : clampRatio p = p := clampRatio_of_mem p hp0 hp1
  have hw := splitCoord_le p r.width
  have hh := splitCoord_le p r.height
  have hweq : splitCoord p r.width = (Int.floor (p * r.width)).toNat := by
    unfold splitCoord; rw [hclamp]
  have hheq : splitCoord p r.height = (Int.floor (p * r.height)).toNat := by
    unfold splitCoord; rw [hclamp]
  constructor
  · refine ⟨by simp [hsplitRects, hweq], by simp [hsplitRects, hweq], ?_, ?_⟩
    · intro i j
      simp only [hsplitRects, Rect.contains]
      omega
    · intro i j
      simp only [hsplitRects, Rect.contains]
      omega
  · refine ⟨by simp [vsplitRects, hheq], by simp [vsplitRects, hheq], ?_, ?_⟩
    · intro i j
      simp only [vsplitRects, Rect.contains]
      omega
    · intro i j
      simp only [vsplitRects, Rect.contains]
      omega

/-- Witness for C1 at `p = 1/2`, `R = ⟨0, 0, 10, 5⟩`: the cell `(4, 2)` of
`R` is covered by one of the two sub-rectangles. -/
theorem c1_witness :
    (hsplitRects (1 / 2) ⟨0, 0, 10, 5⟩).1.contains 4 2 ∨
      (hsplitRects (1 / 2) ⟨0, 0, 10, 5⟩).2.contains 4 2 :=
  ((c1_split_tiling (1 / 2) ⟨0, 0, 10, 5⟩ (by norm_num) (by norm_num)
      (by decide) (by decide)).1.2.2.1 4 2).mp (by decide)

/-- C2: whenever either computed sub-region's primary dimension is smaller
than 2 cells, a splitter's `draw` renders exactly one child at the full
input rectangle — the first child if the (raw) ratio exceeds 0.5,
otherwise the second — and the paint trace contains nothing from the other
child. -/
theorem c2_collapse_policy (a b : Container) (p : ℚ) (r : Rect) :
    ((hsplitRects p r).1.width < 2 ∨ (hsplitRects p r).2.width < 2 →
      Container.draw (.hsplit a b p) r =
        if 1 / 2 < p then a.draw r else b.draw r) ∧
    ((vsplitRects p r).1.height < 2 ∨ (vsplitRects p r).2.height < 2 →
      Container.draw (.vsplit a b p) r =
        if 1 / 2 < p then a.draw r else b.draw r) := by
  constructor <;> intro h <;> simp only [Container.draw] <;> rw [if_pos h]

lemma splitCoord_half_3 : splitCoord (1 / 2) 3 = 1 := by
  unfold splitCoord
  rw [clampRatio_of_mem _ (by norm_num) (by norm_num)]
  have h : (1 / 2 : ℚ) * ((3 : Nat) : ℚ) = 3 / 2 := by push_cast; ring
  rw [h]
  have h2 : Int.floor ((3 : ℚ) / 2) = 1 := by
    rw [Int.floor_eq_iff] <;> norm_num
  rw [h2]
  rfl

/-- Witness for C2: a 3-cell-wide rectangle split at ratio 1/2 produces a
1-cell left sub-region, so the whole trace is the second child's at the
full rectangle. -/
theorem c2_witness :
    Container.draw
        (.hsplit (.basic BasicWidget.default) (.basic BasicWidget.default) (1 / 2))
        ⟨0, 0, 3, 3⟩ =
      if 1 / 2 < (1 / 2 : ℚ) then
        Container.draw (.basic BasicWidget.default) ⟨0, 0, 3, 3⟩
      else Container.draw (.basic BasicWidget.default) ⟨0, 0, 3, 3⟩ :=
  (c2_collapse_policy (.basic BasicWidget.default) (.basic BasicWidget.default)
      (1 / 2) ⟨0, 0, 3, 3⟩).1
    (by
      left
      show splitCoord (1 / 2) 3 < 2
      rw [splitCoord_half_3]
      omega)

/-- Every widget painted inside a rectangle with both dimensions ≥ 2 itself
receives a rectangle with both dimensions ≥ 2: a split either hands a child
the full rectangle (collapse) or sub-rectangles whose primary dimension
passed the ≥ 2 guard and whose secondary dimension is inherited. -/
lemma draw_dims (t : Container) : ∀ (r : Rect), 2 ≤ r.width → 2 ≤ r.height →
    ∀ e ∈ t.draw r, 2 ≤ e.2.width ∧ 2 ≤ e.2.height := by
  induction t with
  | basic w =>
    intro r hw hh e he
    simp only [Container.draw, List.mem_singleton] at he
    subst he
    exact ⟨hw, hh⟩
  | root c ih =>
    intro r hw hh e he
    simp only [Container.draw] at he
    rw [if_neg (by omega)] at he
    exact ih r hw hh e he
  | hsplit a b p iha ihb =>
    intro r hw hh e he
    simp only [Container.draw] at he
    by_cases hc : (hsplitRects p r).1.width < 2 ∨ (hsplitRects p r).2.width < 2
    · rw [if_pos hc] at he
      by_cases hp : 1 / 2 < p
      · rw [if_pos hp] at he; exact iha r hw hh e he
      · rw [if_neg hp] at he; exact ihb r hw hh e he
    · rw [if_neg hc] at he
      push_neg at hc
      rcases List.mem_append.mp he with h | h
      · exact iha _ (by simpa [hsplitRects] using hc.1) (by simpa [hsplitRects]) e h
      · exact ihb _ (by simpa [hsplitRects] using hc.2) (by simpa [hsplitRects]) e h
  | vsplit a b p iha ihb =>
    intro r hw hh e he
    simp only [Container.draw] at he
    by_cases hc : (vsplitRects p r).1.height < 2 ∨ (vsplitRects p r).2.height < 2
    · rw [if_pos hc] at he
      by_cases hp : 1 / 2 < p
      · rw [if_pos hp] at he; exact iha r hw hh e he
      · rw [if_neg hp] at he; exact ihb r hw hh e he
    · rw [if_neg hc] at he
      push_neg at hc
      rcases List.mem_append.mp he with h | h
      · exact iha _ (by simpa [vsplitRects]) (by simpa [vsplitRects] using hc.1) e h
      · exact ihb _ (by simpa [vsplitRects]) (by simpa [vsplitRects] using hc.2) e h

/-- C9: if the Root container's `draw` is invoked with a rectangle whose
width and height are both at least 2, every `BasicWidget::draw` call in the
recursive layout receives a rectangle with width ≥ 2 and height ≥ 2, so the
interior-inset subtractions `width - 2` / `height - 2` never underflow. -/
theorem c9_no_inset_underflow (c : Container) (r : Rect) (e : BasicWidget × Rect)
    (hw : 2 ≤ r.width) (hh : 2 ≤ r.height)
    (he : e ∈ Container.draw (.root c) r) :
    2 ≤ e.2.width ∧ 2 ≤ e.2.height :=
  draw_dims (.root c) r hw hh e he

/-- Witness for C9: the single widget painted by a root-wrapped leaf in a
4×4 rectangle receives that 4×4 rectangle. -/
theorem c9_witness :
    2 ≤ (BasicWidget.default, (⟨0, 0, 4, 4⟩ : Rect)).2.width ∧
      2 ≤ (BasicWidget.default, (⟨0, 0, 4, 4⟩ : Rect)).2.height :=
  c9_no_inset_underflow (.basic BasicWidget.default) ⟨0, 0, 4, 4⟩
    (BasicWidget.default, ⟨0, 0, 4, 4⟩) (by decide) (by decide) (by decide)

/-- `ContainerStack` (main.rs:40-43): a path of `u8` child indices plus
exclusive ownership of the root container. -/
structure ContainerStack where
  stack : List Nat
  root : Container
  deriving DecidableEq

/-- Path resolution: the fold in `ContainerStack::current` /
`current_mut` (main.rs:57-73) — repeated `get_child`, short-circuiting to
`none` on the first failed lookup. -/
def resolvePath : Container → List Nat → Option Container
  | t, [] => some t
  | t, i :: rest =>
    match t.get_child i with
    | some c => resolvePath c rest
    | none => none

def ContainerStack.current (s : ContainerStack) : Option Container :=
  resolvePath s.root s.stack

/-- Functional image of an in-place mutation through `current_mut`: apply
`f` to the node at `path` and rebuild; identity when the path does not
resolve (the source's `if let Some(...) = self.current_mut()` no-op). -/
def modifyAt : Container → List Nat → (Container → Container) → Container
  | t, [], f => f t
  | t, i :: rest, f =>
    match t.get_child i with
    | some c => t.set_child i (modifyAt c rest f)
    | none => t

/-- The highlight override applied on selection:
`WStyleOpt::default().set_border_style(Style::default().fg(Yellow))`. -/
def highlight : WStyleOpt := WStyleOpt.default.set_border_style yellowFg

/-- `ContainerStack::set_selected_style` (main.rs:75-79). -/
def ContainerStack.set_selected_style (s : ContainerStack) : ContainerStack :=
  { s with root := modifyAt s.root s.stack (fun c => c.set_override_style highlight) }

/-- `ContainerStack::unset_selected_style` (main.rs:81-85). -/
def ContainerStack.unset_selected_style (s : ContainerStack) : ContainerStack :=
  { s with root := modifyAt s.root s.stack Container.unset_override_style }

/-- `ContainerStack::set_child_selected_style` (main.rs:87-93). -/
def ContainerStack.set_child_selected_style (s : ContainerStack) (index : Nat) :
    ContainerStack :=
  { s with root := modifyAt s.root (s.stack ++ [index]) (fun c => c.set_override_style highlight) }

/-- `ContainerStack::focus_down` (main.rs:103-117).  The source calls
`self.current_mut().unwrap()` before checking `has_children`; `none` models
the panic of that `unwrap` on a stale path. -/
def ContainerStack.focus_down (s : ContainerStack) (index : Nat) :
    Option ContainerStack :=
  let s1 := s.unset_selected_style
  match s1.current with
  | none => none
  | some c =>
    let s2 := if c.has_children && (c.get_child index).isSome
              then { s1 with stack := s1.stack ++ [index] } else s1
    some (match s2.current with
          | none => s2
          | some c2 =>
            if c2.has_children then s2.set_child_selected_style 0
            else s2.set_selected_style)

/-- `ContainerStack::focus_up` (main.rs:119-129): pops the last path
segment and returns it unless the path length is ≤ 1, in which case it
returns 0 and pops nothing; always re-highlights the child at the
returned index. -/
def ContainerStack.focus_up (s : ContainerStack) : ContainerStack × Nat :=
  let s1 := s.unset_selected_style
  if 1 < s1.stack.length then
    let ret := s1.stack.getLastD 0
    let s2 := { s1 with stack := s1.stack.dropLast }
    (s2.set_child_selected_style ret, ret)
  else
    (s1.set_child_selected_style 0, 0)

/-- `ContainerStack::focus_shift` (main.rs:131-148).  `cur_index + 1` is a
`u8` addition, hence the `% 256`; the leftward target is clamped at 0. -/
def ContainerStack.focus_shift (s : ContainerStack) (cur_index : Nat) (left : Bool) :
    ContainerStack × Bool :=
  let s1 := s.unset_selected_style
  match s1.current with
  | none => (s1, false)
  | some c =>
    let new_index := if left
      then (if cur_index = 0 then 0 else cur_index - 1)
      else (cur_index + 1) % 256
    if (c.get_child new_index).isSome
    then (s1.set_child_selected_style new_index, true)
    else (s1.set_selected_style, false)

/-- Structural skeleton of a tree: widget contents erased.  Style
operations preserve it, and path resolution only depends on it. -/
def Container.shape : Container → Container
  | .basic _ => .basic BasicWidget.default
  | .root c => .root c.shape
  | .hsplit a b p => .hsplit a.shape b.shape p
  | .vsplit a b p => .vsplit a.shape b.shape p

lemma get_child_shape (t : Container) (i : Nat) :
    t.shape.get_child i = (t.get_child i).map Container.shape := by
  cases t <;>
    (match i with
     | 0 => rfl
     | 1 => rfl
     | _ + 2 => rfl)

lemma has_children_shape (t : Container) :
    t.shape.has_children = t.has_children := by
  cases t <;> rfl

lemma resolvePath_shape (p : List Nat) (t : Container) :
    resolvePath t.shape p = (resolvePath t p).map Container.shape := by
  induction p generalizing t with
  | nil => rfl
  | cons i rest ih =>
    simp only [resolvePath, get_child_shape]
    cases h : t.get_child i with
    | none => rfl
    | some c => simpa using ih c

lemma set_child_shape (t : Container) (i : Nat) (d : Container) :
    (t.set_child i d).shape = t.shape.set_child i d.shape := by
  cases t <;>
    (match i with
     | 0 => rfl
     | 1 => rfl
     | _ + 2 => rfl)

lemma set_child_self (t : Container) (i : Nat) (c : Container)
    (h : t.get_child i = some c) : t.set_child i c = t := by
  cases t with
  | basic w => rfl
  | root d =>
    match i with
    | 0 => simp only [Container.get_child, Option.some.injEq] at h; simp [Container.set_child, h]
    | _ + 1 => rfl
  | hsplit a b p =>
    match i with
    | 0 => simp only [Container.get_child, Option.some.injEq] at h; simp [Container.set_child, h]
    | 1 => simp only [Container.get_child, Option.some.injEq] at h; simp [Container.set_child, h]
    | _ + 2 => rfl
  | vsplit a b p =>
    match i with
    | 0 => simp only [Container.get_child, Option.some.injEq] at h; simp [Container.set_child, h]
    | 1 => simp only [Container.get_child, Option.some.injEq] at h; simp [Container.set_child, h]
    | _ + 2 => rfl

lemma set_override_shape (o : WStyleOpt) (t : Container) :
    (t.set_override_style o).shape = t.shape := by
  induction t <;> simp [Container.set_override_style, Container.shape, *]

lemma unset_override_shape (t : Container) :
    t.unset_override_style.shape = t.shape := by
  induction t <;> simp [Container.unset_override_style, Container.shape, *]

/-- A mutation through the navigation cursor with a shape-preserving
payload preserves the shape of the whole tree. -/
lemma modifyAt_shape (q : List Nat) (t : Container) (f : Container → Container)
    (hf : ∀ c, (f c).shape = c.shape) :
    (modifyAt t q f).shape = t.shape := by
  induction q generalizing t with
  | nil => exact hf t
  | cons i rest ih =>
    simp only [modifyAt]
    cases h : t.get_child i with
    | none => rfl
    | some c =>
      rw [set_child_shape, ih c]
      apply set_child_self
      rw [get_child_shape, h]
      rfl

lemma resolve_of_shape_eq {t1 t2 : Container} (h : t1.shape = t2.shape)
    (p : List Nat) {c : Container} (hc : resolvePath t1 p = some c) :
    ∃ c', resolvePath t2 p = some c' ∧ c'.shape = c.shape := by
  have h1 := resolvePath_shape p t1
  have h2 := resolvePath_shape p t2
  rw [hc, h] at h1
  rw [h1] at h2
  rcases Option.map_eq_some'.mp h2.symm with ⟨c', hc', hs⟩
  exact ⟨c', hc', hs⟩

lemma unset_selected_shape (s : ContainerStack) :
    s.unset_selected_style.root.shape = s.root.shape :=
  modifyAt_shape _ _ _ unset_override_shape

lemma set_selected_shape (s : ContainerStack) :
    s.set_selected_style.root.shape = s.root.shape :=
  modifyAt_shape _ _ _ (set_override_shape highlight)

lemma set_child_selected_shape (s : ContainerStack) (i : Nat) :
    (s.set_child_selected_style i).root.shape = s.root.shape :=
  modifyAt_shape _ _ _ (set_override_shape highlight)

lemma unset_selected_stack (s : ContainerStack) :
    s.unset_selected_style.stack = s.stack := rfl

lemma set_selected_stack (s : ContainerStack) :
    s.set_selected_style.stack = s.stack := rfl

lemma set_child_selected_stack (s : ContainerStack) (i : Nat) :
    (s.set_child_selected_style i).stack = s.stack := rfl

lemma has_children_get_child_zero (t : Container) (h : t.has_children = true) :
    (t.get_child 0).isSome := by
  cases t <;> simp_all [Container.has_children, Container.get_child]

/-- C4 counterexample: `set_child` on a Leaf (`BasicContainer`) does not
replace the owned widget, even when the supplied node carries one — the
method body is empty (containers.rs:165-166). -/
theorem c4_counterexample :
    (Container.basic BasicWidget.default).set_child 0
        (.basic ⟨"replacement", "", WStyle.default, none⟩) =
      .basic BasicWidget.default ∧
    (Container.basic ⟨"replacement", "", WStyle.default, none⟩).get_widget =
      some ⟨"replacement", "", WStyle.default, none⟩ ∧
    BasicWidget.default ≠ ⟨"replacement", "", WStyle.default, none⟩ := by
  refine ⟨rfl, rfl, ?_⟩
  intro h
  simp [BasicWidget.default] at h

/-- C4 amended: `set_child` on a Leaf is a no-op for every index and every
replacement node (whether or not it supplies a widget); the Leaf's owned
widget is replaced only through `set_widget`. -/
theorem c4_amended (w w' : BasicWidget) (i : Nat) (n : Container) :
    (Container.basic w).set_child i n = .basic w ∧
    (Container.basic w).set_widget w' = .basic w' :=
  ⟨rfl, rfl⟩

/-- C3 counterexample: on a stale path that no longer resolves
(`[0, 0]` over `Root(Leaf)`), `focus_down` reaches
`self.current_mut().unwrap()` with `None` and panics (modelled as `none`)
instead of completing. -/
theorem c3_counterexample :
    (ContainerStack.mk [0, 0] (.root (.basic BasicWidget.default))).focus_down 0 =
      none := rfl

/-- C10: for every current node that has children, `focus_shift` with
`cur_index = 0` in the left direction clamps the target index to 0, finds
child 0, returns `true`, and re-highlights child 0; it never returns
`false` for a leftward shift at index 0, so the caller cannot detect the
absence of a left sibling at the leftmost position. -/
theorem c10_left_shift_at_zero (s : ContainerStack) (c : Container)
    (hc : s.current = some c) (hch : c.has_children = true) :
    s.focus_shift 0 true = (s.unset_selected_style.set_child_selected_style 0, true) := by
  obtain ⟨c', hc', hs⟩ :=
    resolve_of_shape_eq (unset_selected_shape s).symm s.stack hc
  have hcur : s.unset_selected_style.current = some c' := hc'
  have hch' : c'.has_children = true := by
    rw [← has_children_shape, hs, has_children_shape]; exact hch
  have hg : (c'.get_child 0).isSome := has_children_get_child_zero c' hch'
  simp [ContainerStack.focus_shift, hcur, hg]

/-- Witness for C10: the startup stack before the initial `push(0)` — path
`[]` over `Root(Leaf)` — has a current node with children, and a leftward
shift at index 0 succeeds. -/
theorem c10_witness :
    (ContainerStack.mk [] (.root (.basic BasicWidget.default))).focus_shift 0 true =
      ((ContainerStack.mk [] (.root (.basic BasicWidget.default))).unset_selected_style.set_child_selected_style 0,
       true) :=
  c10_left_shift_at_zero _ (.root (.basic BasicWidget.default)) rfl rfl

/-- `HSplitContainer::default` (containers.rs:385-392). -/
def hsplitContainerDefault : Container :=
  .hsplit (.basic BasicWidget.default) (.basic BasicWidget.default) (1 / 2)

/-- `VSplitContainer::default` (containers.rs:501-508). -/
def vsplitContainerDefault : Container :=
  .vsplit (.basic BasicWidget.default) (.basic BasicWidget.default) (1 / 2)

/-- The key events the loop distinguishes (`termion::event::Key`). -/
inductive Key where
  | char (c : Char)
  | up
  | down
  | left
  | right
  | delete
  deriving DecidableEq

/-- The tag of `InputMode` (main.rs:24-28); the stack the variants own is
carried separately in `LoopState`, mirroring how each variant exclusively
owns the `ContainerStack` value. -/
inductive Mode where
  | normal
  | select
  | insert
  deriving DecidableEq

/-- The mutable state of the event loop in `main` (main.rs:206-210):
mode-tagged stack ownership plus the two `u8` cursor indices. -/
structure LoopState where
  mode : Mode
  stack : ContainerStack
  selection_index : Nat
  menu_selection_index : Nat
  deriving DecidableEq

/-- One key event of the loop (main.rs:271-363).  Tick events only redraw
and mutate nothing.  `none` models both `break` on `q` and a panic of an
`unwrap()` on a stale path.  `u8` saturating arithmetic on the cursor
indices appears as `min (· + 1) 255` and truncated subtraction. -/
def step (s : LoopState) (k : Key) : Option LoopState :=
  match s.mode with
  | .normal =>
    match k with
    | .char ch =>
      if ch = 'q' then none
      else if ch = 'i' then
        some { s with mode := .select, stack := s.stack.set_selected_style }
      else some s
    | _ => some s
  | .select =>
    let x := s.stack.set_child_selected_style s.selection_index
    match k with
    | .char ch =>
      if ch = 'q' then none
      else if ch = 'c' then
        some { s with mode := .normal,
                      stack := { x with root := x.root.unset_override_style } }
      else if ch = 'r' then
        some { s with stack := { x with stack := [0],
                                        root := x.root.set_child 0 (.basic BasicWidget.default) } }
      else if ch = '\n' then
        some { s with mode := .insert, stack := x, menu_selection_index := 0 }
      else some { s with stack := x }
    | .down =>
      match x.focus_down s.selection_index with
      | none => none
      | some x' => some { s with stack := x', selection_index := 0 }
    | .up =>
      let pr := x.focus_up
      some { s with stack := pr.1, selection_index := pr.2 }
    | .left =>
      let pr := x.focus_shift s.selection_index true
      some { s with stack := pr.1,
                    selection_index := if pr.2 then s.selection_index - 1
                                       else s.selection_index }
    | .right =>
      let pr := x.focus_shift s.selection_index false
      some { s with stack := pr.1,
                    selection_index := if pr.2 then min (s.selection_index + 1) 255
                                       else s.selection_index }
    | .delete =>
      match x.current with
      | none => none
      | some _ =>
        let root' := modifyAt x.root x.stack
          (fun c => c.set_child s.selection_index (.basic BasicWidget.default))
        some { s with stack := { x with root := root' } }
  | .insert =>
    match k with
    | .char ch =>
      if ch = 'q' then none
      else if ch = 'c' then
        some { s with mode := .select, selection_index := 0 }
      else if ch = '\n' then
        match (match s.menu_selection_index with
               | 0 => some hsplitContainerDefault
               | 1 => some vsplitContainerDefault
               | 2 => some (Container.basic BasicWidget.default)
               | _ + 3 => none) with
        | some node =>
          match s.stack.current with
          | none => none
          | some _ =>
            let root' := modifyAt s.stack.root s.stack.stack
              (fun c => c.set_child s.selection_index node)
            some { s with stack := { s.stack with root := root' },
                          selection_index := 0 }
        | none => some { s with selection_index := 0 }
      else some s
    | .down => some { s with menu_selection_index := min (s.menu_selection_index + 1) 255 }
    | .up => some { s with menu_selection_index := s.menu_selection_index - 1 }
    | _ => some s

/-- The fixed startup layout built in `main` (main.rs:170-205). -/
def initialTree : Container :=
  .root (.hsplit
    (.vsplit (.basic ⟨"Top Left", "Some Text", WStyle.default, none⟩)
             (.basic ⟨"Bottom Left", "Some Text", WStyle.default, none⟩)
             (1 / 2))
    (.vsplit (.basic ⟨"Lorem Ipsum", "Top", WStyle.default, none⟩)
             (.hsplit (.basic ⟨"Infinite Possibility", "", WStyle.default, none⟩)
                      (.basic ⟨"Death Gripsum", "Right", WStyle.default, none⟩)
                      (3 / 4))
             (3 / 20))
    (3 / 20))

/-- The loop state after setup (main.rs:206-210): path `[0]`, Normal mode,
both cursor indices 0. -/
def initState : LoopState :=
  ⟨.normal, ⟨[0], initialTree⟩, 0, 0⟩

/-- States of the event loop reachable from the initial state by key
events (ticks mutate nothing). -/
inductive Reachable : LoopState → Prop
  | init : Reachable initState
  | next (s s' : LoopState) (k : Key) : Reachable s → step s k = some s' → Reachable s'

lemma focus_down_stack_cases (s : ContainerStack) (i : Nat) (s' : ContainerStack)
    (h : s.focus_down i = some s') :
    s'.stack = s.stack ∨ s'.stack = s.stack ++ [i] := by
  simp only [ContainerStack.focus_down] at h
  cases hc : s.unset_selected_style.current with
  | none => rw [hc] at h; cases h
  | some c =>
    rw [hc] at h
    simp only [Option.some.injEq] at h
    subst h
    by_cases hb : (c.has_children && (c.get_child i).isSome) = true
    · rw [if_pos hb]
      right
      cases h2 : ({ s.unset_selected_style with
          stack := s.unset_selected_style.stack ++ [i] } : ContainerStack).current <;>
        simp [h2, set_child_selected_stack, set_selected_stack, unset_selected_stack]
      split <;> rfl
    · rw [if_neg hb]
      left
      cases h2 : s.unset_selected_style.current <;>
        simp [h2, set_child_selected_stack, set_selected_stack, unset_selected_stack]
      split <;> rfl

lemma focus_up_stack_cases (s : ContainerStack) :
    (s.focus_up.1.stack = s.stack ∧ s.stack.length ≤ 1 ∧ s.focus_up.2 = 0) ∨
    (s.focus_up.1.stack = s.stack.dropLast ∧ 1 < s.stack.length) := by
  simp only [ContainerStack.focus_up]
  by_cases h : 1 < s.stack.length
  · right
    rw [if_pos (by simpa [unset_selected_stack] using h)]
    exact ⟨rfl, h⟩
  · left
    rw [if_neg (by simpa [unset_selected_stack] using h)]
    exact ⟨rfl, by omega, rfl⟩

lemma focus_shift_stack_eq (s : ContainerStack) (i : Nat) (b : Bool) :
    (s.focus_shift i b).1.stack = s.stack := by
  simp only [ContainerStack.focus_shift]
  cases hc : s.unset_selected_style.current with
  | none => rfl
  | some c =>
    simp only []
    split_ifs <;> rfl

lemma head?_append_singleton (l : List Nat) (i : Nat) (h : 1 ≤ l.length) :
    (l ++ [i]).head? = l.head? := by
  cases l with
  | nil => simp at h
  | cons a t => rfl

lemma dropLast_head_len (l : List Nat) (h : 1 < l.length) :
    l.dropLast.head? = l.head? ∧ 1 ≤ l.dropLast.length := by
  match l, h with
  | a :: b :: t, _ =>
    refine ⟨rfl, ?_⟩
    simp [List.length_dropLast]

/-- Every key event preserves the path invariant: length at least 1 and
first segment 0. -/
lemma step_preserves_path (s s' : LoopState) (k : Key)
    (h : step s k = some s')
    (h1 : 1 ≤ s.stack.stack.length) (h2 : s.stack.stack.head? = some 0) :
    1 ≤ s'.stack.stack.length ∧ s'.stack.stack.head? = some 0 := by
  cases hm : s.mode
  case normal =>
    unfold step at h
    rw [hm] at h
    cases k
    case char ch =>
      simp only [] at h
      split_ifs at h
      · simp only [Option.some.injEq] at h
        subst h
        exact ⟨h1, h2⟩
      · simp only [Option.some.injEq] at h
        subst h
        exact ⟨h1, h2⟩
    all_goals
      simp only [Option.some.injEq] at h
    all_goals
      subst h
    all_goals
      exact ⟨h1, h2⟩
  case select =>
    unfold step at h
    rw [hm] at h
    cases k
    case char ch =>
      simp only [] at h
      split_ifs at h
      · simp only [Option.some.injEq] at h
        subst h
        exact ⟨h1, h2⟩
      · simp only [Option.some.injEq] at h
        subst h
        exact ⟨by simp, rfl⟩
      · simp only [Option.some.injEq] at h
        subst h
        exact ⟨h1, h2⟩
      · simp only [Option.some.injEq] at h
        subst h
        exact ⟨h1, h2⟩
    case down =>
      simp only [] at h
      cases hf : (s.stack.set_child_selected_style s.selection_index).focus_down
          s.selection_index with
      | none => rw [hf] at h; simp at h
      | some x' =>
        rw [hf] at h
        simp only [Option.some.injEq] at h
        subst h
        rcases focus_down_stack_cases _ _ _ hf with he | he
        · rw [he]
          exact ⟨h1, h2⟩
        · rw [he]
          refine ⟨by simp, ?_⟩
          rw [set_child_selected_stack, head?_append_singleton _ _ h1]
          exact h2
    case up =>
      simp only [Option.some.injEq] at h
      subst h
      rcases focus_up_stack_cases (s.stack.set_child_selected_style s.selection_index)
        with ⟨he, _, _⟩ | ⟨he, hl⟩
      · rw [he]
        exact ⟨h1, h2⟩
      · rw [he, set_child_selected_stack]
        have hd := dropLast_head_len s.stack.stack hl
        refine ⟨hd.2, ?_⟩
        rw [hd.1]
        exact h2
    case left =>
      simp only [Option.some.injEq] at h
      subst h
      rw [focus_shift_stack_eq]
      exact ⟨h1, h2⟩
    case right =>
      simp only [Option.some.injEq] at h
      subst h
      rw [focus_shift_stack_eq]
      exact ⟨h1, h2⟩
    case delete =>
      simp only [] at h
      cases hc : (s.stack.set_child_selected_style s.selection_index).current with
      | none => rw [hc] at h; simp at h
      | some c =>
        rw [hc] at h
        simp only [Option.some.injEq] at h
        subst h
        exact ⟨h1, h2⟩
  case insert =>
    unfold step at h
    rw [hm] at h
    cases k
    case char ch =>
      simp only [] at h
      split_ifs at h
      · simp only [Option.some.injEq] at h
        subst h
        exact ⟨h1, h2⟩
      · rcases hmenu : s.menu_selection_index with _ | _ | _ | m <;>
          rw [hmenu] at h <;> simp only [] at h
        · cases hc : s.stack.current with
          | none => rw [hc] at h; simp at h
          | some c =>
            rw [hc] at h
            simp only [Option.some.injEq] at h
            subst h
            exact ⟨h1, h2⟩
        · cases hc : s.stack.current with
          | none => rw [hc] at h; simp at h
          | some c =>
            rw [hc] at h
            simp only [Option.some.injEq] at h
            subst h
            exact ⟨h1, h2⟩
        · cases hc : s.stack.current with
          | none => rw [hc] at h; simp at h
          | some c =>
            rw [hc] at h
            simp only [Option.some.injEq] at h
            subst h
            exact ⟨h1, h2⟩
        · simp only [Option.some.injEq] at h
          subst h
          exact ⟨h1, h2⟩
      · simp only [Option.some.injEq] at h
        subst h
        exact ⟨h1, h2⟩
    all_goals
      simp only [Option.some.injEq] at h
    all_goals
      subst h
    all_goals
      exact ⟨h1, h2⟩

/-- C5: in every state of the event loop reachable from the initial state
(path `[0]`), the navigation path has length at least 1 and its first
segment is index 0 (the Root's single child slot); and `focus_up` on a
path of length 1 or less pops nothing and returns 0, so the Root's child
is never popped from the path. -/
theorem c5_root_never_popped :
    (∀ s, Reachable s → 1 ≤ s.stack.stack.length ∧ s.stack.stack.head? = some 0) ∧
    (∀ st : ContainerStack, st.stack.length ≤ 1 →
      st.focus_up.2 = 0 ∧ st.focus_up.1.stack = st.stack) := by
  constructor
  · intro s hs
    induction hs with
    | init => exact ⟨by simp [initState], rfl⟩
    | next s s' k hr hstep ih => exact step_preserves_path s s' k hstep ih.1 ih.2
  · intro st hlen
    rcases focus_up_stack_cases st with ⟨he, _, hret⟩ | ⟨_, hl⟩
    · exact ⟨hret, he⟩
    · omega

/-- Witness for C5: the invariant holds at the initial state, and
`focus_up` on the one-segment path `[0]` over `Root(Leaf)` returns 0 and
leaves the path alone. -/
theorem c5_witness :
    (1 ≤ initState.stack.stack.length ∧ initState.stack.stack.head? = some 0) ∧
    ((ContainerStack.mk [0] (.root (.basic BasicWidget.default))).focus_up.2 = 0 ∧
     (ContainerStack.mk [0] (.root (.basic BasicWidget.default))).focus_up.1.stack = [0]) :=
  ⟨c5_root_never_popped.1 initState Reachable.init,
   c5_root_never_popped.2 ⟨[0], .root (.basic BasicWidget.default)⟩ (by simp)⟩

lemma modifyAt_root_cons (c : Container) (i : Nat) (rest : List Nat)
    (f : Container → Container) :
    ∃ c', modifyAt (.root c) (i :: rest) f = .root c' := by
  cases i with
  | zero => exact ⟨modifyAt c rest f, rfl⟩
  | succ n => exact ⟨c, rfl⟩

/-- C8: pressing `r` in Select mode replaces the entire tree under the
Root with a single fresh empty leaf and resets the navigation path to
`[0]`, regardless of the prior depth of the path (and of the highlight
applied before the match). -/
theorem c8_reset_tree (s : LoopState) (c : Container)
    (hm : s.mode = .select) (hr : s.stack.root = .root c) :
    step s (.char 'r') =
      some { s with stack := ⟨[0], .root (.basic BasicWidget.default)⟩ } := by
  have hne : ∃ i rest, s.stack.stack ++ [s.selection_index] = i :: rest := by
    cases s.stack.stack with
    | nil => exact ⟨s.selection_index, [], rfl⟩
    | cons a t => exact ⟨a, t ++ [s.selection_index], rfl⟩
  obtain ⟨i, rest, hir⟩ := hne
  have hroot : (s.stack.set_child_selected_style s.selection_index).root.set_child 0
      (.basic BasicWidget.default) = Container.root (.basic BasicWidget.default) := by
    show (modifyAt s.stack.root (s.stack.stack ++ [s.selection_index])
        (fun c => c.set_override_style highlight)).set_child 0
        (.basic BasicWidget.default) = _
    rw [hr, hir]
    obtain ⟨c', hc'⟩ := modifyAt_root_cons c i rest _
    rw [hc']
    rfl
  unfold step
  rw [hm]
  simp [hroot]

/-- Witness for C8: from a 2-deep path in Select mode over the startup
tree, `r` collapses the tree to `Root(Leaf)` and resets the path. -/
theorem c8_witness :
    step ⟨.select, ⟨[0, 1], initialTree⟩, 1, 0⟩ (.char 'r') =
      some ⟨.select, ⟨[0], .root (.basic BasicWidget.default)⟩, 1, 0⟩ :=
  c8_reset_tree ⟨.select, ⟨[0, 1], initialTree⟩, 1, 0⟩
    (.hsplit
      (.vsplit (.basic ⟨"Top Left", "Some Text", WStyle.default, none⟩)
               (.basic ⟨"Bottom Left", "Some Text", WStyle.default, none⟩)
               (1 / 2))
      (.vsplit (.basic ⟨"Lorem Ipsum", "Top", WStyle.default, none⟩)
               (.hsplit (.basic ⟨"Infinite Possibility", "", WStyle.default, none⟩)
                        (.basic ⟨"Death Gripsum", "Right", WStyle.default, none⟩)
                        (3 / 4))
               (3 / 20))
      (3 / 20)) rfl rfl

lemma get_child_isSome_of_shape_eq {c1 c2 : Container} (h : c1.shape = c2.shape)
    (m : Nat) : (c1.get_child m).isSome = (c2.get_child m).isSome := by
  have e1 := get_child_shape c1 m
  have e2 := get_child_shape c2 m
  rw [h, e2] at e1
  cases h1 : c1.get_child m <;> cases h2 : c2.get_child m <;> simp_all

/-- C6 counterexample: with the current node an `HSplit` (children 0 and
1) and `cur_index = 0`, a leftward `focus_shift` targets a sibling that
does not exist (there is none left of index 0), yet the call returns
`true` instead of `false`, because the target index is clamped back to 0. -/
theorem c6_counterexample :
    ((ContainerStack.mk [0]
        (.root (.hsplit (.basic BasicWidget.default) (.basic BasicWidget.default) 1))).focus_shift
      0 true).2 = true := rfl

/-- C6 amended: in Select mode, `focus_shift` toward a non-existent
*right* sibling returns `false` and the loop leaves `selection_index`
unchanged, while a shift toward an existing target returns `true` and the
loop moves `selection_index` by one (saturating); a *leftward* shift at
index 0 re-targets index 0 itself, so it succeeds whenever child 0 exists
rather than reporting the missing left sibling. -/
theorem c6_amended (s : LoopState) (c : Container)
    (hm : s.mode = .select) (hc : s.stack.current = some c) :
    (∃ s', step s .right = some s' ∧
       s'.selection_index =
         (if (c.get_child ((s.selection_index + 1) % 256)).isSome then
            min (s.selection_index + 1) 255
          else s.selection_index)) ∧
    (∃ s', step s .left = some s' ∧
       s'.selection_index =
         (if (c.get_child (if s.selection_index = 0 then 0
                           else s.selection_index - 1)).isSome then
            s.selection_index - 1
          else s.selection_index)) := by
  have hsh : (s.stack.set_child_selected_style s.selection_index).unset_selected_style.root.shape
      = s.stack.root.shape := by
    rw [unset_selected_shape, set_child_selected_shape]
  obtain ⟨c1, hc1, hs1⟩ := resolve_of_shape_eq hsh.symm s.stack.stack hc
  have hcur1 :
      (s.stack.set_child_selected_style s.selection_index).unset_selected_style.current
        = some c1 := hc1
  constructor
  · have hstep : step s .right = some { s with
        stack := ((s.stack.set_child_selected_style s.selection_index).focus_shift
          s.selection_index false).1,
        selection_index :=
          if ((s.stack.set_child_selected_style s.selection_index).focus_shift
              s.selection_index false).2 then min (s.selection_index + 1) 255
          else s.selection_index } := by
      unfold step
      rw [hm]
    have hb : ((s.stack.set_child_selected_style s.selection_index).focus_shift
        s.selection_index false).2
          = (c.get_child ((s.selection_index + 1) % 256)).isSome := by
      simp only [ContainerStack.focus_shift, hcur1]
      rw [get_child_isSome_of_shape_eq hs1]
      cases hg : (c.get_child ((s.selection_index + 1) % 256)).isSome with
      | true => rw [if_pos (by simpa using hg)]
      | false => rw [if_neg (by simp [hg])]
    refine ⟨_, hstep, ?_⟩
    simp only [hb]
  · have hstep : step s .left = some { s with
        stack := ((s.stack.set_child_selected_style s.selection_index).focus_shift
          s.selection_index true).1,
        selection_index :=
          if ((s.stack.set_child_selected_style s.selection_index).focus_shift
              s.selection_index true).2 then s.selection_index - 1
          else s.selection_index } := by
      unfold step
      rw [hm]
    have hb : ((s.stack.set_child_selected_style s.selection_index).focus_shift
        s.selection_index true).2
          = (c.get_child (if s.selection_index = 0 then 0
                          else s.selection_index - 1)).isSome := by
      simp only [ContainerStack.focus_shift, hcur1]
      rw [get_child_isSome_of_shape_eq hs1]
      cases hg : (c.get_child (if s.selection_index = 0 then 0
          else s.selection_index - 1)).isSome with
      | true => rw [if_pos (by simpa using hg)]
      | false => rw [if_neg (by simp [hg])]
    refine ⟨_, hstep, ?_⟩
    simp only [hb]

/-- Witness for C6 (amended): in a Select state whose current node is a
Leaf, a rightward shift has no target, the step succeeds and
`selection_index` stays 0. -/
theorem c6_witness :
    ∃ s', step ⟨.select, ⟨[0], .root (.basic BasicWidget.default)⟩, 0, 0⟩ Key.right
        = some s' ∧ s'.selection_index = 0 := by
  obtain ⟨s', h1, h2⟩ :=
    (c6_amended ⟨.select, ⟨[0], .root (.basic BasicWidget.default)⟩, 0, 0⟩
      (.basic BasicWidget.default) rfl rfl).1
  exact ⟨s', h1, by rw [h2]; decide⟩

/-- C3 amended: `current`/`current_mut` themselves report a failed lookup
as absence (`none`), and whenever the current path does resolve,
`focus_down`, the Select-mode Delete action and the Insert-mode Enter
action complete without failing; but on a path that no longer resolves
these three operations `unwrap()` the lookup and panic, so a failed
lookup is fatal there (see the counterexample). -/
theorem c3_amended (s : LoopState) (h : s.stack.current.isSome) :
    (∀ i, (s.stack.focus_down i).isSome) ∧
    (s.mode = .select → (step s .delete).isSome) ∧
    (s.mode = .insert → (step s (.char '\n')).isSome) := by
  obtain ⟨c, hc⟩ := Option.isSome_iff_exists.mp h
  refine ⟨?_, ?_, ?_⟩
  · intro i
    obtain ⟨c1, hc1, _⟩ :=
      resolve_of_shape_eq (unset_selected_shape s.stack).symm s.stack.stack hc
    have hcur : s.stack.unset_selected_style.current = some c1 := hc1
    simp [ContainerStack.focus_down, hcur]
  · intro hm
    obtain ⟨c1, hc1, _⟩ :=
      resolve_of_shape_eq (set_child_selected_shape s.stack s.selection_index).symm
        s.stack.stack hc
    have hcur : (s.stack.set_child_selected_style s.selection_index).current
        = some c1 := hc1
    unfold step
    rw [hm]
    simp [hcur]
  · intro hm
    unfold step
    rw [hm]
    simp only []
    rw [if_neg (by decide), if_neg (by decide)]
    simp only [if_true]
    rcases hmenu : s.menu_selection_index with _ | _ | _ | m <;> simp [hc]

/-- Witness for C3 (amended): in a Select state over `Root(Leaf)` with
path `[0]`, the path resolves, `focus_down 0` completes and Delete
completes. -/
theorem c3_witness :
    ((⟨.select, ⟨[0], .root (.basic BasicWidget.default)⟩, 0, 0⟩ :
        LoopState).stack.focus_down 0).isSome ∧
    (step (⟨.select, ⟨[0], .root (.basic BasicWidget.default)⟩, 0, 0⟩ :
        LoopState) .delete).isSome := by
  have h := c3_amended ⟨.select, ⟨[0], .root (.basic BasicWidget.default)⟩, 0, 0⟩ (by decide)
  exact ⟨h.1 0, h.2.1 rfl⟩
